import Mathlib

/-!
Verification of the cache/event/loading coordination core of the
`graphql-react` repository, shallowly embedded in Lean 4.

The embedding models a JS object used as a string-keyed map as an
association list `List (String × V)` in insertion order.  Event listeners
are modelled by an environment `CacheEnv`: `onEvent t s` is the net effect
the listeners for an event of type `t` have on the store (dispatch runs
listeners synchronously and they may mutate the store), and `prevents t`
tells whether some listener of a cancelable event of type `t` calls
`preventDefault()`.  Each operation returns the new store together with
the trace of events it dispatched itself, and an optional thrown JS error.

The `for (const cacheKey in cache.store)` loops of the bulk operations are
modelled per the ECMAScript semantics of `for...in` over a plain object:
the own enumerable keys are captured when the loop starts, each is visited
at most once and in insertion order, and a key that is no longer an own
property when its turn comes is skipped.
-/

namespace GraphqlReact

/-- A thrown JS error: either a `TypeError` (argument validation) or a plain
`Error`, carrying its message. -/
inductive JSError where
  | typeError (message : String)
  | error (message : String)
deriving DecidableEq

/-- A dispatched event record: the event type string, whether the event was
created cancelable, and its `detail` payload (when one was given). -/
structure CacheEvent (V : Type) where
  eventType : String
  cancelable : Bool
  detail : Option V
deriving DecidableEq

/-- The listener environment of a cache: the net store mutation the
listeners of a given event type perform when the event is dispatched, and
whether any listener of that event type calls `preventDefault()`. -/
structure CacheEnv (V : Type) where
  onEvent : String → List (String × V) → List (String × V)
  prevents : String → Bool

/-- A listener environment whose listeners never mutate the store; the
`prevents` behaviour is still arbitrary. -/
def pureEnv {V : Type} (p : String → Bool) : CacheEnv V :=
  ⟨fun _ st => st, p⟩

/-- JS `cacheKey in cache.store`: whether the key is present in the store. -/
def containsKey {V : Type} (st : List (String × V)) (k : String) : Bool :=
  st.any (fun kv => kv.1 == k)

/-- JS `delete cache.store[cacheKey]`: remove the entry with that key,
leaving all other entries in place. -/
def deleteKey {V : Type} (st : List (String × V)) (k : String) :
    List (String × V) :=
  st.filter (fun kv => kv.1 != k)

/-- JS `cache.store[cacheKey] = cacheValue`: overwrite the value of an
existing key in place, or append a new entry at the end. -/
def storeSet {V : Type} (st : List (String × V)) (k : String) (v : V) :
    List (String × V) :=
  if containsKey st k then
    st.map (fun kv => if kv.1 == k then (k, v) else kv)
  else st ++ [(k, v)]

/-- Modelled from the spec: `Cache`'s `get(key)` returns the current value
of the key or absent (the `Cache` class file is not in the sources). -/
def storeGet {V : Type} (st : List (String × V)) (k : String) : Option V :=
  match st with
  | [] => none
  | kv :: rest => if kv.1 == k then some kv.2 else storeGet rest k

/-- The keys of the store, in insertion order. -/
def storeKeys {V : Type} (st : List (String × V)) : List String :=
  st.map (·.1)

/-- Result of one cache operation on a well-typed cache: the store after
the call, the events the operation itself dispatched (in order), and the
error it threw, if any. -/
structure OpResult (V : Type) where
  store : List (String × V)
  trace : List (CacheEvent V)
  err : Option JSError
deriving DecidableEq

/-- `cacheEntryDelete(cache, cacheKey)` from `src/cacheEntryDelete.mjs`,
after argument validation: if the key is in the store, delete it and then
dispatch a non-cancelable `"<key>/delete"` `CustomEvent`; otherwise do
nothing. -/
def cacheEntryDelete {V : Type} (env : CacheEnv V) (st : List (String × V))
    (k : String) : OpResult V :=
  if containsKey st k then
    let st1 := deleteKey st k
    let st2 := env.onEvent (k ++ "/delete") st1
    ⟨st2, [⟨k ++ "/delete", false, none⟩], none⟩
  else ⟨st, [], none⟩

/-- `cacheEntryStale(cache, cacheKey)` from `src/cacheEntryStale.mjs`,
after argument validation: throw `Error` if the key is absent, otherwise
dispatch a non-cancelable `"<key>/stale"` `CustomEvent` without touching
the store. -/
def cacheEntryStale {V : Type} (env : CacheEnv V) (st : List (String × V))
    (k : String) : OpResult V :=
  if containsKey st k then
    let st1 := env.onEvent (k ++ "/stale") st
    ⟨st1, [⟨k ++ "/stale", false, none⟩], none⟩
  else
    ⟨st, [], some (.error ("Cache key `" ++ k ++ "` isn’t in the store."))⟩

/-- Modelled from the spec: `cacheEntrySet`/`setEntry(cache, key, value)`
(the file is not in the sources) unconditionally overwrites `store[key]`
and then emits a non-cancelable `"<key>/set"` event with the new value as
detail. -/
def cacheEntrySet {V : Type} (env : CacheEnv V) (st : List (String × V))
    (k : String) (v : V) : OpResult V :=
  let st1 := storeSet st k v
  let st2 := env.onEvent (k ++ "/set") st1
  ⟨st2, [⟨k ++ "/set", false, some v⟩], none⟩

/-- Modelled from the spec: `cacheEntryPrune`/`pruneEntry(cache, key)`
(the file is not in the sources): if the key is absent, no-op.  If present,
dispatch a cancelable `"<key>/prune"` event first; if a listener called
`preventDefault()` the prune is aborted and the entry remains, otherwise
proceed to `cacheEntryDelete`. -/
def cacheEntryPrune {V : Type} (env : CacheEnv V) (st : List (String × V))
    (k : String) : OpResult V :=
  if containsKey st k then
    let st1 := env.onEvent (k ++ "/prune") st
    let prevented := env.prevents (k ++ "/prune")
    let pruneEv : CacheEvent V := ⟨k ++ "/prune", true, none⟩
    if prevented then ⟨st1, [pruneEv], none⟩
    else
      let r := cacheEntryDelete env st1 k
      ⟨r.store, pruneEv :: r.trace, r.err⟩
  else ⟨st, [], none⟩

/-- Result of a bulk cache operation; `visited` lists the keys the
`for...in` loop yielded, in order. -/
structure BulkResult (V : Type) where
  store : List (String × V)
  trace : List (CacheEvent V)
  err : Option JSError
  visited : List String
deriving DecidableEq

/-- Forget which keys a bulk run visited, keeping the observable outcome. -/
def BulkResult.toOp {V : Type} (r : BulkResult V) : OpResult V :=
  ⟨r.store, r.trace, r.err⟩

/-- The `for (const cacheKey in cache.store) ...` loop of the bulk
operations: the key list is captured at the start, each key is visited at
most once and in order, and a key that is no longer present when its turn
comes is skipped.  A thrown error aborts the loop and propagates. -/
def forInRun {V : Type} (body : List (String × V) → String → OpResult V) :
    List String → List (String × V) → BulkResult V
  | [], st => ⟨st, [], none, []⟩
  | k :: rest, st =>
    if containsKey st k then
      let r := body st k
      match r.err with
      | some e => ⟨r.store, r.trace, some e, [k]⟩
      | none =>
        let r2 := forInRun body rest r.store
        ⟨r2.store, r.trace ++ r2.trace, r2.err, k :: r2.visited⟩
    else forInRun body rest st

/-- The iteration the claim describes: the body is applied to every key of
the snapshot unconditionally, whether or not the key is still present when
its turn comes.  A thrown error aborts the loop and propagates. -/
def forInSnapshot {V : Type}
    (body : List (String × V) → String → OpResult V) :
    List String → List (String × V) → OpResult V
  | [], st => ⟨st, [], none⟩
  | k :: rest, st =>
    let r := body st k
    match r.err with
    | some e => ⟨r.store, r.trace, some e⟩
    | none =>
      let r2 := forInSnapshot body rest r.store
      ⟨r2.store, r.trace ++ r2.trace, r2.err⟩

/-- JS `!cacheKeyMatcher || cacheKeyMatcher(cacheKey)`: an omitted matcher
matches every key. -/
def matcherAllows (m : Option (String → Bool)) (k : String) : Bool :=
  match m with
  | none => true
  | some f => f k

/-- Loop body of `cacheDelete` from `src/cacheDelete.mjs`. -/
def deleteBody {V : Type} (env : CacheEnv V) (m : Option (String → Bool)) :
    List (String × V) → String → OpResult V :=
  fun st k => if matcherAllows m k then cacheEntryDelete env st k
    else ⟨st, [], none⟩

/-- Loop body of `cacheStale` (`src/unnamed/part_004`). -/
def staleBody {V : Type} (env : CacheEnv V) (m : Option (String → Bool)) :
    List (String × V) → String → OpResult V :=
  fun st k => if matcherAllows m k then cacheEntryStale env st k
    else ⟨st, [], none⟩

/-- Loop body of `cachePrune` (`src/unnamed/part_000`). -/
def pruneBody {V : Type} (env : CacheEnv V) (m : Option (String → Bool)) :
    List (String × V) → String → OpResult V :=
  fun st k => if matcherAllows m k then cacheEntryPrune env st k
    else ⟨st, [], none⟩

/-- `cacheDelete(cache, cacheKeyMatcher)` from `src/cacheDelete.mjs`, after
argument validation: `for...in` over the store keys, deleting each matching
entry. -/
def cacheDelete {V : Type} (env : CacheEnv V) (m : Option (String → Bool))
    (st : List (String × V)) : BulkResult V :=
  forInRun (deleteBody env m) (storeKeys st) st

/-- `cacheStale(cache, cacheKeyMatcher)` from `src/unnamed/part_004`, after
argument validation: `for...in` over the store keys, staling each matching
entry. -/
def cacheStale {V : Type} (env : CacheEnv V) (m : Option (String → Bool))
    (st : List (String × V)) : BulkResult V :=
  forInRun (staleBody env m) (storeKeys st) st

/-- `cachePrune(cache, cacheKeyMatcher)` from `src/unnamed/part_000`, after
argument validation: `for...in` over the store keys, pruning each matching
entry. -/
def cachePrune {V : Type} (env : CacheEnv V) (m : Option (String → Bool))
    (st : List (String × V)) : BulkResult V :=
  forInRun (pruneBody env m) (storeKeys st) st

/-- Snapshot-semantics variant of `cacheDelete`, following the words of the
claim rather than the source's live `for...in`. -/
def cacheDeleteSnapshot {V : Type} (env : CacheEnv V)
    (m : Option (String → Bool)) (st : List (String × V)) : OpResult V :=
  forInSnapshot (deleteBody env m) (storeKeys st) st

/-- Snapshot-semantics variant of `cacheStale`, following the words of the
claim rather than the source's live `for...in`. -/
def cacheStaleSnapshot {V : Type} (env : CacheEnv V)
    (m : Option (String → Bool)) (st : List (String × V)) : OpResult V :=
  forInSnapshot (staleBody env m) (storeKeys st) st

/-- Snapshot-semantics variant of `cachePrune`, following the words of the
claim rather than the source's live `for...in`. -/
def cachePruneSnapshot {V : Type} (env : CacheEnv V)
    (m : Option (String → Bool)) (st : List (String × V)) : OpResult V :=
  forInSnapshot (pruneBody env m) (storeKeys st) st

/-- JS truthiness of the optional string argument `exceptCacheKey`:
`undefined` and the empty string are falsy, every other string is truthy. -/
def jsTruthyStr : Option String → Bool
  | some s => s != ""
  | none => false

/-- `GraphQL#reset(exceptCacheKey)` from `src/src/universal/GraphQL.mjs`:
take `Object.keys(this.cache)`, filter out `exceptCacheKey` when it is
truthy, delete each remaining key from the cache, and only then emit a
single `reset` event.  Returns the cache after the call and the list of
emitted event types in emission order. -/
def graphQLReset {V : Type} (cache : List (String × V))
    (exceptCacheKey : Option String) : List (String × V) × List String :=
  let cacheKeys := storeKeys cache
  let cacheKeys :=
    if jsTruthyStr exceptCacheKey then
      cacheKeys.filter (fun h => h != exceptCacheKey.getD "")
    else cacheKeys
  let cache1 := cacheKeys.foldl (fun acc k => deleteKey acc k) cache
  (cache1, ["reset"])

/-- Modelled from the spec: the `Loading` registry (the `Loading` class
file is not in the sources) maps cache keys to the set of in-flight
`LoadingCacheValue`s for that key, here identified by numeric ids;
`register` adds to the set for the key, creating the set if absent. -/
def loadingRegister (l : List (String × List Nat)) (k : String) (idn : Nat) :
    List (String × List Nat) :=
  if containsKey l k then
    l.map (fun e => if e.1 == k then (e.1, e.2 ++ [idn]) else e)
  else l ++ [(k, [idn])]

/-- Modelled from the spec: `Loading`'s `unregister` removes the value from
the key's set and removes the key entirely when its set becomes empty. -/
def loadingUnregister (l : List (String × List Nat)) (k : String)
    (idn : Nat) : List (String × List Nat) :=
  (l.map (fun e => if e.1 == k then (e.1, e.2.filter (· != idn)) else e)).filter
    (fun e => e.1 != k || !e.2.isEmpty)

/-- The in-flight ids registered in `Loading` under a key. -/
def loadingIds (l : List (String × List Nat)) (k : String) : List Nat :=
  (l.filter (fun e => e.1 == k)).flatMap (·.2)

/-- The combined state a `LoadingCacheValue` acts on: the `Cache` store and
the `Loading` registry it back-references. -/
structure LoadSys (V : Type) where
  cache : List (String × V)
  loading : List (String × List Nat)
deriving DecidableEq

/-- Terminal observation of a `LoadingCacheValue`'s state machine. -/
inductive LcvState where
  | pending
  | committed
  | aborted
deriving DecidableEq

/-- Modelled from the spec: constructing a `LoadingCacheValue` (the file is
not in the sources) immediately registers it into `Loading` under its cache
key; its state is then `PENDING`. -/
def lcvConstruct {V : Type} (sys : LoadSys V) (k : String) (idn : Nat) :
    LoadSys V :=
  { sys with loading := loadingRegister sys.loading k idn }

/-- Modelled from the spec: when the result promise of a `LoadingCacheValue`
settles, if the abort controller's signal fired before settlement the cache
write is skipped entirely but the value still unregisters from `Loading`
(state `ABORTED`); otherwise the resolved value is written into the cache
via `cacheEntrySet` and the value unregisters from `Loading` (state
`COMMITTED`). -/
def lcvSettle {V : Type} (env : CacheEnv V) (sys : LoadSys V) (k : String)
    (idn : Nat) (aborted : Bool) (v : V) : LoadSys V × LcvState :=
  if aborted then
    ({ sys with loading := loadingUnregister sys.loading k idn },
      LcvState.aborted)
  else
    ({ cache := (cacheEntrySet env sys.cache k v).store,
       loading := loadingUnregister sys.loading k idn },
      LcvState.committed)

/-- A dynamically-typed JS argument, as far as the argument validation of
the public operations distinguishes them. -/
inductive JSValue (V : Type) where
  | cacheInstance (st : List (String × V))
  | stringVal (s : String)
  | funcVal (f : String → Bool)
  | boolVal (b : Bool)
  | undefinedVal

/-- Whether the argument passes `cache instanceof Cache`. -/
def isCacheVal {V : Type} : JSValue V → Bool
  | .cacheInstance _ => true
  | _ => false

/-- Whether the argument passes `typeof cacheKey === "string"`. -/
def isStringVal {V : Type} : JSValue V → Bool
  | .stringVal _ => true
  | _ => false

/-- Whether the argument passes the bulk operations' matcher check
`cacheKeyMatcher === undefined || typeof cacheKeyMatcher === "function"`. -/
def isMatcherVal {V : Type} : JSValue V → Bool
  | .funcVal _ => true
  | .undefinedVal => true
  | _ => false

/-- Outcome of calling a public operation with dynamically-typed arguments:
the first argument after the call (JS mutates the cache in place), the
events dispatched, and the error thrown, if any. -/
structure JSOutcome (V : Type) where
  arg1After : JSValue V
  trace : List (CacheEvent V)
  err : Option JSError

/-- The matcher argument a bulk operation passes to its loop once
validation succeeded. -/
def toMatcher {V : Type} : JSValue V → Option (String → Bool)
  | .funcVal f => some f
  | _ => none

/-- `cacheEntryDelete` including its argument validation: both `TypeError`s
are thrown before any state change or event dispatch. -/
def cacheEntryDeleteChecked {V : Type} (env : CacheEnv V)
    (a1 a2 : JSValue V) : JSOutcome V :=
  match a1 with
  | .cacheInstance st =>
    match a2 with
    | .stringVal k =>
      let r := cacheEntryDelete env st k
      ⟨.cacheInstance r.store, r.trace, r.err⟩
    | _ => ⟨a1, [], some (.typeError "Argument 2 `cacheKey` must be a string.")⟩
  | _ => ⟨a1, [], some (.typeError "Argument 1 `cache` must be a `Cache` instance.")⟩

/-- `cacheEntryStale` including its argument validation. -/
def cacheEntryStaleChecked {V : Type} (env : CacheEnv V)
    (a1 a2 : JSValue V) : JSOutcome V :=
  match a1 with
  | .cacheInstance st =>
    match a2 with
    | .stringVal k =>
      let r := cacheEntryStale env st k
      ⟨.cacheInstance r.store, r.trace, r.err⟩
    | _ => ⟨a1, [], some (.typeError "Argument 2 `cacheKey` must be a string.")⟩
  | _ => ⟨a1, [], some (.typeError "Argument 1 `cache` must be a `Cache` instance.")⟩

/-- `cacheDelete` including its argument validation. -/
def cacheDeleteChecked {V : Type} (env : CacheEnv V)
    (a1 a2 : JSValue V) : JSOutcome V :=
  match a1 with
  | .cacheInstance st =>
    if isMatcherVal a2 then
      let r := cacheDelete env (toMatcher a2) st
      ⟨.cacheInstance r.store, r.trace, r.err⟩
    else
      ⟨a1, [], some (.typeError "Argument 2 `cacheKeyMatcher` must be a function.")⟩
  | _ => ⟨a1, [], some (.typeError "Argument 1 `cache` must be a `Cache` instance.")⟩

/-- `cacheStale` including its argument validation. -/
def cacheStaleChecked {V : Type} (env : CacheEnv V)
    (a1 a2 : JSValue V) : JSOutcome V :=
  match a1 with
  | .cacheInstance st =>
    if isMatcherVal a2 then
      let r := cacheStale env (toMatcher a2) st
      ⟨.cacheInstance r.store, r.trace, r.err⟩
    else
      ⟨a1, [], some (.typeError "Argument 2 `cacheKeyMatcher` must be a function.")⟩
  | _ => ⟨a1, [], some (.typeError "Argument 1 `cache` must be a `Cache` instance.")⟩

/-- `cachePrune` including its argument validation. -/
def cachePruneChecked {V : Type} (env : CacheEnv V)
    (a1 a2 : JSValue V) : JSOutcome V :=
  match a1 with
  | .cacheInstance st =>
    if isMatcherVal a2 then
      let r := cachePrune env (toMatcher a2) st
      ⟨.cacheInstance r.store, r.trace, r.err⟩
    else
      ⟨a1, [], some (.typeError "Argument 2 `cacheKeyMatcher` must be a function.")⟩
  | _ => ⟨a1, [], some (.typeError "Argument 1 `cache` must be a `Cache` instance.")⟩

/-- A concrete listener environment over `Nat`-valued stores where the
listeners of the `"a/stale"` event delete the cache key `"b"` (for example
via `cacheEntryDelete`), and no listener calls `preventDefault`. -/
def staleListenerEnv : CacheEnv Nat :=
  ⟨fun t st => if t == "a/stale" then deleteKey st "b" else st,
    fun _ => false⟩

theorem containsKey_eq_false_iff {V : Type} {st : List (String × V)}
    {k : String} : containsKey st k = false ↔ ∀ kv ∈ st, kv.1 ≠ k := by
  simp [containsKey, List.any_eq_true]

theorem deleteKey_of_not_contains {V : Type} {st : List (String × V)}
    {k : String} (h : containsKey st k = false) : deleteKey st k = st := by
  rw [deleteKey, List.filter_eq_self]
  intro kv hkv
  simpa using containsKey_eq_false_iff.mp h kv hkv

theorem forInRun_visited_sublist {V : Type}
    (body : List (String × V) → String → OpResult V) :
    ∀ (keys : List String) (st : List (String × V)),
      (forInRun body keys st).visited.Sublist keys := by
  intro keys
  induction keys with
  | nil => intro st; simp [forInRun]
  | cons k rest ih =>
    intro st
    rw [forInRun]
    by_cases hc : containsKey st k
    · simp only [hc, if_true]
      cases herr : (body st k).err with
      | some e => simp
      | none => simpa using ih (body st k).store
    · simp only [hc]
      exact (ih st).trans (List.sublist_cons_self k rest)

theorem forInRun_toOp_eq_snapshot_of_noop {V : Type}
    {body : List (String × V) → String → OpResult V}
    (h : ∀ st k, containsKey st k = false → body st k = ⟨st, [], none⟩) :
    ∀ (keys : List String) (st : List (String × V)),
      (forInRun body keys st).toOp = forInSnapshot body keys st := by
  intro keys
  induction keys with
  | nil => intro st; rfl
  | cons k rest ih =>
    intro st
    rw [forInRun, forInSnapshot]
    by_cases hc : containsKey st k
    · simp only [hc, if_true]
      cases herr : (body st k).err with
      | some e => rfl
      | none => simp only [BulkResult.toOp, ← ih (body st k).store]
    · simp only [hc, if_false, h st k (by simpa using hc), ← ih st]
      rfl

theorem forInRun_toOp_eq_snapshot_of_const_store {V : Type}
    {body : List (String × V) → String → OpResult V}
    {st : List (String × V)} (hst : ∀ k, (body st k).store = st) :
    ∀ (keys : List String), (∀ k ∈ keys, containsKey st k = true) →
      (forInRun body keys st).toOp = forInSnapshot body keys st := by
  intro keys
  induction keys with
  | nil => intro _; rfl
  | cons k rest ih =>
    intro hpres
    rw [forInRun, forInSnapshot]
    simp only [hpres k (List.mem_cons_self k rest), if_true]
    cases herr : (body st k).err with
    | some e => rfl
    | none =>
      rw [hst k]
      simp only [BulkResult.toOp, ← ih (fun k' hk' => hpres k' (List.mem_cons_of_mem k hk'))]

theorem forInRun_store_filter {V : Type}
    {body : List (String × V) → String → OpResult V} {q : String → Bool}
    (hstore : ∀ st k, containsKey st k = true →
      (body st k).store = if q k then deleteKey st k else st)
    (herr : ∀ st k, containsKey st k = true → (body st k).err = none) :
    ∀ (keys : List String) (st : List (String × V)),
      (forInRun body keys st).store =
        st.filter (fun kv => !((keys.filter q).contains kv.1)) := by
  intro keys
  induction keys with
  | nil => intro st; simp [forInRun]
  | cons k rest ih =>
    intro st
    rw [forInRun]
    by_cases hc : containsKey st k
    · simp only [hc, if_true, herr st k hc]
      rw [ih (body st k).store, hstore st k hc]
      by_cases hq : q k
      · simp only [hq, if_true, deleteKey, List.filter_filter]
        rw [List.filter_cons_of_pos hq]
        apply List.filter_congr
        intro kv _
        simp only [List.contains_cons, Bool.not_or, Bool.and_comm, bne]
      · rw [if_neg hq, List.filter_cons_of_neg (by simpa using hq)]
    · rw [if_neg hc, ih st]
      by_cases hq : q k
      · rw [List.filter_cons_of_pos hq]
        apply List.filter_congr
        intro kv hkv
        have hne : kv.1 ≠ k := containsKey_eq_false_iff.mp (by simpa using hc) kv hkv
        simp [List.contains_cons, hne]
      · rw [List.filter_cons_of_neg (by simpa using hq)]

theorem deleteBody_store {V : Type} (p : String → Bool)
    (m : Option (String → Bool)) (st : List (String × V)) (k : String)
    (hc : containsKey st k = true) :
    (deleteBody (pureEnv p) m st k).store =
      if matcherAllows m k then deleteKey st k else st := by
  by_cases hm : matcherAllows m k
  · simp [deleteBody, hm, cacheEntryDelete, hc, pureEnv]
  · simp [deleteBody, hm]

theorem deleteBody_err {V : Type} (env : CacheEnv V)
    (m : Option (String → Bool)) (st : List (String × V)) (k : String) :
    (deleteBody env m st k).err = none := by
  by_cases hm : matcherAllows m k <;>
    by_cases hc : containsKey st k <;>
      simp [deleteBody, hm, cacheEntryDelete, hc]

theorem pruneBody_pure_store {V : Type} (p : String → Bool)
    (m : Option (String → Bool)) (st : List (String × V)) (k : String)
    (hc : containsKey st k = true) :
    (pruneBody (pureEnv p) m st k).store =
      if matcherAllows m k && !p (k ++ "/prune") then deleteKey st k
      else st := by
  by_cases hm : matcherAllows m k
  · by_cases hp : p (k ++ "/prune")
    · simp [pruneBody, hm, cacheEntryPrune, hc, pureEnv, hp]
    · simp [pruneBody, hm, cacheEntryPrune, hc, pureEnv, hp, cacheEntryDelete]
  · simp [pruneBody, hm]

theorem pruneBody_err {V : Type} (env : CacheEnv V)
    (m : Option (String → Bool)) (st : List (String × V)) (k : String) :
    (pruneBody env m st k).err = none := by
  simp only [pruneBody, cacheEntryPrune, cacheEntryDelete]
  split_ifs <;> rfl

theorem staleBody_pure_store {V : Type} (p : String → Bool)
    (m : Option (String → Bool)) (st : List (String × V)) (k : String) :
    (staleBody (pureEnv p) m st k).store = st := by
  by_cases hm : matcherAllows m k
  · by_cases hc : containsKey st k <;>
      simp [staleBody, hm, cacheEntryStale, hc, pureEnv]
  · simp [staleBody, hm]

theorem staleBody_err_of_contains {V : Type} (env : CacheEnv V)
    (m : Option (String → Bool)) (st : List (String × V)) (k : String)
    (hc : containsKey st k = true) :
    (staleBody env m st k).err = none := by
  by_cases hm : matcherAllows m k <;>
    simp [staleBody, hm, cacheEntryStale, hc]

theorem contains_filter_keys {V : Type} (q : String → Bool)
    (st : List (String × V)) (kv : String × V) (hkv : kv ∈ st) :
    ((storeKeys st).filter q).contains kv.1 = q kv.1 := by
  have hmem : kv.1 ∈ storeKeys st := List.mem_map_of_mem _ hkv
  by_cases hq : q kv.1
  · have hin : kv.1 ∈ (storeKeys st).filter q := List.mem_filter.mpr ⟨hmem, hq⟩
    simp [List.contains, List.elem_eq_mem, hin, hq]
  · have hout : kv.1 ∉ (storeKeys st).filter q :=
      fun h => hq (List.mem_filter.mp h).2
    simp [List.contains, List.elem_eq_mem, hout,
      Bool.eq_false_iff.mpr (fun h => hq h)]

theorem cacheDelete_pure_store {V : Type} (p : String → Bool)
    (m : Option (String → Bool)) (st : List (String × V)) :
    (cacheDelete (pureEnv p) m st).store =
      st.filter (fun kv => !matcherAllows m kv.1) := by
  rw [cacheDelete,
    forInRun_store_filter (deleteBody_store p m) (fun st k _ => deleteBody_err _ m st k)]
  apply List.filter_congr
  intro kv hkv
  rw [contains_filter_keys _ st kv hkv]

theorem cachePrune_pure_store {V : Type} (p : String → Bool)
    (m : Option (String → Bool)) (st : List (String × V)) :
    (cachePrune (pureEnv p) m st).store =
      st.filter (fun kv => !(matcherAllows m kv.1 && !p (kv.1 ++ "/prune"))) := by
  rw [cachePrune,
    forInRun_store_filter (pruneBody_pure_store p m)
      (fun st k _ => pruneBody_err _ m st k)]
  apply List.filter_congr
  intro kv hkv
  rw [contains_filter_keys _ st kv hkv]

theorem cacheStale_pure_store {V : Type} (p : String → Bool)
    (m : Option (String → Bool)) (st : List (String × V)) :
    (cacheStale (pureEnv p) m st).store = st := by
  rw [cacheStale,
    forInRun_store_filter (q := fun _ => false)
      (fun st k _ => staleBody_pure_store p m st k)
      (fun st k hc => staleBody_err_of_contains _ m st k hc)]
  simp

theorem foldl_deleteKey {V : Type} :
    ∀ (ks : List String) (st : List (String × V)),
      ks.foldl (fun acc k => deleteKey acc k) st =
        st.filter (fun kv => !(ks.contains kv.1)) := by
  intro ks
  induction ks with
  | nil => intro st; simp
  | cons k rest ih =>
    intro st
    rw [List.foldl_cons, ih (deleteKey st k), deleteKey, List.filter_filter]
    apply List.filter_congr
    intro kv _
    simp only [List.contains_cons, Bool.not_or, Bool.and_comm, bne]

theorem storeGet_map_overwrite {V : Type} {k : String} {v : V} :
    ∀ {st : List (String × V)}, containsKey st k = true →
      storeGet (st.map fun kv => if kv.1 == k then (k, v) else kv) k =
        some v := by
  intro st
  induction st with
  | nil => intro h; simp [containsKey] at h
  | cons kv rest ih =>
    intro h
    by_cases hk : kv.1 == k
    · simp [storeGet, hk]
    · have hrest : containsKey rest k = true := by
        have := h
        simp only [containsKey, List.any_cons, hk, Bool.false_or] at this
        exact this
      simp only [List.map_cons, if_neg (by simpa using hk), storeGet,
        hk, ih hrest]
      rw [if_neg (by simpa using hk)]

theorem storeGet_append_absent {V : Type} {k : String} {v : V} :
    ∀ {st : List (String × V)}, containsKey st k = false →
      storeGet (st ++ [(k, v)]) k = some v := by
  intro st
  induction st with
  | nil => intro _; simp [storeGet]
  | cons kv rest ih =>
    intro h
    have hk : (kv.1 == k) = false := by
      have := containsKey_eq_false_iff.mp h kv (List.mem_cons_self kv rest)
      simpa using this
    have hrest : containsKey rest k = false := by
      simp only [containsKey, List.any_cons, hk, Bool.false_or] at h
      exact h
    rw [List.cons_append]
    simp only [storeGet, hk]
    rw [if_neg (by simp [hk])]
    simpa using ih hrest

theorem storeGet_storeSet {V : Type} (st : List (String × V)) (k : String)
    (v : V) : storeGet (storeSet st k v) k = some v := by
  rw [storeSet]
  by_cases hc : containsKey st k
  · rw [if_pos hc]
    exact storeGet_map_overwrite hc
  · rw [if_neg hc]
    exact storeGet_append_absent (by simpa using hc)

theorem not_mem_ids_of_fresh {l : List (String × List Nat)} {k : String}
    {idn : Nat} (hfresh : idn ∉ loadingIds l k) {e : String × List Nat}
    (he : e ∈ l) (hek : (e.1 == k) = true) : idn ∉ e.2 := by
  intro hin
  apply hfresh
  rw [loadingIds]
  exact List.mem_flatMap_of_mem (List.mem_filter.mpr ⟨he, hek⟩) hin

theorem keep_eq_true {l : List (String × List Nat)} {k : String}
    (hwf : ∀ e ∈ l, e.2 ≠ []) (e : String × List Nat) (he : e ∈ l) :
    (e.1 != k || !e.2.isEmpty) = true := by
  by_cases hek : (e.1 == k) = true
  · have : e.2 ≠ [] := hwf e he
    simp [List.isEmpty_iff, this]
  · simp [bne, hek]

theorem loadingUnregister_loadingRegister {l : List (String × List Nat)}
    {k : String} {idn : Nat} (hfresh : idn ∉ loadingIds l k)
    (hwf : ∀ e ∈ l, e.2 ≠ []) :
    loadingUnregister (loadingRegister l k idn) k idn = l := by
  rw [loadingRegister, loadingUnregister]
  by_cases hc : containsKey l k
  · rw [if_pos hc, List.map_map]
    have hmap : l.map ((fun e : String × List Nat =>
        if e.1 == k then (e.1, e.2.filter (· != idn)) else e) ∘
      (fun e : String × List Nat =>
        if e.1 == k then (e.1, e.2 ++ [idn]) else e)) = l := by
      refine (List.map_congr_left ?_).trans (List.map_id' l)
      intro e he
      by_cases hek : (e.1 == k) = true
      · have hnin : idn ∉ e.2 := not_mem_ids_of_fresh hfresh he hek
        have hfil : e.2.filter (· != idn) = e.2 :=
          List.filter_eq_self.mpr fun a ha =>
            bne_iff_ne.mpr fun h => hnin (h ▸ ha)
        simp [Function.comp, hek, hfil, List.filter_append]
      · simp [Function.comp, hek]
    rw [hmap, List.filter_eq_self.mpr (keep_eq_true hwf)]
  · rw [if_neg hc]
    have hkeys : ∀ e ∈ l, (e.1 == k) = false := fun e he => by
      simpa using containsKey_eq_false_iff.mp (by simpa using hc) e he
    rw [List.map_append, List.filter_append]
    have hmap : l.map (fun e : String × List Nat =>
        if e.1 == k then (e.1, e.2.filter (· != idn)) else e) = l := by
      refine (List.map_congr_left ?_).trans (List.map_id' l)
      intro e he
      simp [hkeys e he]
    rw [hmap, List.filter_eq_self.mpr (keep_eq_true hwf)]
    simp

theorem mem_loadingIds_loadingRegister (l : List (String × List Nat))
    (k : String) (idn : Nat) :
    idn ∈ loadingIds (loadingRegister l k idn) k := by
  rw [loadingRegister, loadingIds]
  by_cases hc : containsKey l k
  · rw [if_pos hc]
    obtain ⟨e, he, hek⟩ : ∃ e ∈ l, (e.1 == k) = true := by
      simpa [containsKey, List.any_eq_true] using hc
    refine List.mem_flatMap_of_mem
      (List.mem_filter.mpr ⟨List.mem_map_of_mem _ he, ?_⟩) ?_
    · simp [hek]
    · simp [hek]
  · rw [if_neg hc]
    refine List.mem_flatMap_of_mem
      (List.mem_filter.mpr
        ⟨List.mem_append_right _ (List.mem_singleton_self _), ?_⟩) ?_
    · simp
    · simp

theorem containsKey_of_mem_storeKeys {V : Type} {st : List (String × V)}
    {k : String} (h : k ∈ storeKeys st) : containsKey st k = true := by
  obtain ⟨kv, hkv, rfl⟩ := List.mem_map.mp h
  rw [containsKey, List.any_eq_true]
  exact ⟨kv, hkv, by simp⟩

/-- Claim C2: for a cache with the key present, `pruneEntry` first emits a
cancelable `"<key>/prune"` event; if a listener calls `preventDefault` the
entry remains and no `"<key>/delete"` fires; otherwise the entry is removed
and exactly one non-cancelable `"<key>/delete"` fires after the prune
event.  With the key absent, `pruneEntry` is a no-op firing no event.
Stated for listener environments that do not mutate the store, with an
arbitrary prevent-default behaviour `p`. -/
theorem claimC2_pruneEntryProtocol {V : Type} (p : String → Bool)
    (st : List (String × V)) (k : String) :
    cacheEntryPrune (pureEnv p) st k =
      if containsKey st k then
        if p (k ++ "/prune") then ⟨st, [⟨k ++ "/prune", true, none⟩], none⟩
        else ⟨deleteKey st k,
          [⟨k ++ "/prune", true, none⟩, ⟨k ++ "/delete", false, none⟩], none⟩
      else ⟨st, [], none⟩ := by
  by_cases hc : containsKey st k
  · by_cases hp : p (k ++ "/prune") <;>
      simp [cacheEntryPrune, hc, hp, pureEnv, cacheEntryDelete]
  · simp [cacheEntryPrune, hc]

/-- Claim C3: `staleEntry` on an absent key always fails with the
entry-not-found error and changes nothing; on a present key it leaves the
store unchanged and fires exactly one non-cancelable `"<key>/stale"`
event.  Stated for listener environments that do not mutate the store. -/
theorem claimC3_staleEntrySpec {V : Type} (p : String → Bool)
    (st : List (String × V)) (k : String) :
    cacheEntryStale (pureEnv p) st k =
      if containsKey st k then ⟨st, [⟨k ++ "/stale", false, none⟩], none⟩
      else ⟨st, [], some (JSError.error
        ("Cache key `" ++ k ++ "` isn’t in the store."))⟩ := by
  by_cases hc : containsKey st k <;> simp [cacheEntryStale, hc, pureEnv]

/-- Claim C4: `deleteEntry` on an absent key is a no-op firing no event; on
a present key it removes exactly that key and fires exactly one
non-cancelable `"<key>/delete"` event, with the store mutation applied
before the dispatch: an arbitrary listener environment observes the store
with the key already deleted. -/
theorem claimC4_deleteEntrySpec {V : Type} (env : CacheEnv V)
    (st : List (String × V)) (k : String) :
    cacheEntryDelete env st k =
      if containsKey st k then
        ⟨env.onEvent (k ++ "/delete") (deleteKey st k),
          [⟨k ++ "/delete", false, none⟩], none⟩
      else ⟨st, [], none⟩ := rfl

/-- Claim C5: for all valid `(cache, key, value)`, `setEntry` then `get`
returns `value`, and exactly one non-cancelable `"<key>/set"` event fires
with the new value as its detail payload.  Stated for listener
environments that do not mutate the store. -/
theorem claimC5_setEntrySpec {V : Type} (p : String → Bool)
    (st : List (String × V)) (k : String) (v : V) :
    storeGet (cacheEntrySet (pureEnv p) st k v).store k = some v ∧
    (cacheEntrySet (pureEnv p) st k v).trace =
      [⟨k ++ "/set", false, some v⟩] ∧
    (cacheEntrySet (pureEnv p) st k v).err = none := by
  refine ⟨?_, rfl, rfl⟩
  simpa [cacheEntrySet, pureEnv] using storeGet_storeSet st k v

/-- Claim C6 counterexample: the claim says bulk operations iterate over a
snapshot of the key list so that listeners mutating the store cannot cause
a key matching at call time to be skipped.  With a `"a/stale"` listener
deleting key `"b"`, `cacheStale` on store `{a:1, b:2}` skips `"b"`: its
trace holds only the `"a/stale"` event and no error is thrown, while
snapshot semantics would apply `cacheEntryStale` to the now-absent `"b"`
and throw. -/
theorem claimC6_counterexample :
    containsKey [("a", (1 : Nat)), ("b", 2)] "b" = true ∧
    (cacheStale staleListenerEnv none [("a", (1 : Nat)), ("b", 2)]).toOp ≠
      cacheStaleSnapshot staleListenerEnv none [("a", 1), ("b", 2)] ∧
    (cacheStale staleListenerEnv none [("a", (1 : Nat)), ("b", 2)]).trace =
      [⟨"a/stale", false, none⟩] ∧
    (cacheStale staleListenerEnv none [("a", (1 : Nat)), ("b", 2)]).err =
      none ∧
    (cacheStaleSnapshot staleListenerEnv none
        [("a", (1 : Nat)), ("b", 2)]).err =
      some (JSError.error "Cache key `b` isn’t in the store.") := by
  decide

/-- Claim C6 amended: every bulk operation iterates the keys captured at
call time in insertion order, yielding each at most once (the visited keys
form a sublist of the call-time key list), and skips keys no longer
present when their turn comes.  For `cacheDelete` and `cachePrune` this is
observationally identical to snapshot semantics, because their per-entry
operations are no-ops on absent keys; for `cacheStale` it matches snapshot
semantics whenever listeners do not mutate the store. -/
theorem claimC6_amended :
    (∀ (V : Type) (body : List (String × V) → String → OpResult V)
        (keys : List String) (st : List (String × V)),
      (forInRun body keys st).visited.Sublist keys) ∧
    (∀ (V : Type) (env : CacheEnv V) (m : Option (String → Bool))
        (st : List (String × V)),
      (cacheDelete env m st).toOp = cacheDeleteSnapshot env m st) ∧
    (∀ (V : Type) (env : CacheEnv V) (m : Option (String → Bool))
        (st : List (String × V)),
      (cachePrune env m st).toOp = cachePruneSnapshot env m st) ∧
    (∀ (V : Type) (p : String → Bool) (m : Option (String → Bool))
        (st : List (String × V)),
      (cacheStale (pureEnv p) m st).toOp =
        cacheStaleSnapshot (pureEnv p) m st) := by
  refine ⟨fun V body keys st => forInRun_visited_sublist body keys st,
    fun V env m st => ?_, fun V env m st => ?_, fun V p m st => ?_⟩
  · exact forInRun_toOp_eq_snapshot_of_noop
      (fun st' k hc => by
        by_cases hm : matcherAllows m k <;>
          simp [deleteBody, hm, cacheEntryDelete, hc]) _ _
  · exact forInRun_toOp_eq_snapshot_of_noop
      (fun st' k hc => by
        by_cases hm : matcherAllows m k <;>
          simp [pruneBody, hm, cacheEntryPrune, hc]) _ _
  · exact forInRun_toOp_eq_snapshot_of_const_store
      (fun k => staleBody_pure_store p m st k) _
      (fun k hk => containsKey_of_mem_storeKeys hk)

/-- Claim C7: on `Cache({a:1, b:2})`, `cacheDelete` with no matcher empties
the store and fires exactly two delete events in key order `a` then `b`;
on `Cache({a:1, b:2, c:3})` with matcher `k => k !== "b"`, the final store
is `{b:2}` and delete events fire for `a` then `c` only. -/
theorem claimC7_cacheDeleteScenarios :
    cacheDelete (pureEnv fun _ => false) none [("a", (1 : Nat)), ("b", 2)] =
      ⟨[], [⟨"a/delete", false, none⟩, ⟨"b/delete", false, none⟩], none,
        ["a", "b"]⟩ ∧
    cacheDelete (pureEnv fun _ => false) (some fun k => k != "b")
        [("a", (1 : Nat)), ("b", 2), ("c", 3)] =
      ⟨[("b", 2)], [⟨"a/delete", false, none⟩, ⟨"c/delete", false, none⟩],
        none, ["a", "b", "c"]⟩ := by
  decide

/-- Claim C8: bulk operations with a matcher predicate affect only matching
keys — the final store of `cacheDelete` keeps exactly the non-matching
entries, `cachePrune` keeps the non-matching and the prevent-defaulted
entries, and `cacheStale` keeps every entry — and for every pair of stores
holding the same entries in different insertion orders the final store
contents are identical (permutations map to permutations).  Stated for
listener environments that do not mutate the store. -/
theorem claimC8_bulkMatcherPermutation :
    ∀ (V : Type) (p f : String → Bool) (st st2 : List (String × V)),
      ((cacheDelete (pureEnv p) (some f) st).store =
        st.filter fun kv => !f kv.1) ∧
      ((cachePrune (pureEnv p) (some f) st).store =
        st.filter fun kv => !(f kv.1 && !p (kv.1 ++ "/prune"))) ∧
      ((cacheStale (pureEnv p) (some f) st).store = st) ∧
      (st.Perm st2 →
        ((cacheDelete (pureEnv p) (some f) st).store.Perm
          (cacheDelete (pureEnv p) (some f) st2).store) ∧
        ((cachePrune (pureEnv p) (some f) st).store.Perm
          (cachePrune (pureEnv p) (some f) st2).store) ∧
        ((cacheStale (pureEnv p) (some f) st).store.Perm
          (cacheStale (pureEnv p) (some f) st2).store)) := by
  intro V p f st st2
  have hdel : ∀ s : List (String × V),
      (cacheDelete (pureEnv p) (some f) s).store =
        s.filter fun kv => !f kv.1 :=
    fun s => cacheDelete_pure_store p (some f) s
  have hpru : ∀ s : List (String × V),
      (cachePrune (pureEnv p) (some f) s).store =
        s.filter fun kv => !(f kv.1 && !p (kv.1 ++ "/prune")) :=
    fun s => cachePrune_pure_store p (some f) s
  refine ⟨hdel st, hpru st, cacheStale_pure_store p (some f) st, fun hperm => ?_⟩
  refine ⟨?_, ?_, ?_⟩
  · rw [hdel st, hdel st2]
    exact hperm.filter _
  · rw [hpru st, hpru st2]
    exact hperm.filter _
  · rw [cacheStale_pure_store, cacheStale_pure_store]
    exact hperm

/-- Witness for claim C8 at a concrete permuted pair of stores. -/
theorem claimC8_witness :
    ([("a", (1 : Nat)), ("b", 2)]).Perm [("b", 2), ("a", 1)] ∧
    ((cacheDelete (pureEnv fun _ => false) (some fun k => k == "a")
        [("a", (1 : Nat)), ("b", 2)]).store.Perm
      (cacheDelete (pureEnv fun _ => false) (some fun k => k == "a")
        [("b", (2 : Nat)), ("a", 1)]).store) :=
  ⟨List.Perm.swap ("b", 2) ("a", 1) [],
    ((claimC8_bulkMatcherPermutation Nat (fun _ => false) (fun k => k == "a")
      [("a", 1), ("b", 2)] [("b", 2), ("a", 1)]).2.2.2
        (List.Perm.swap ("b", 2) ("a", 1) [])).1⟩

/-- Claim C9: every public operation validates its argument types first
and, for any invalidly-typed argument, fails synchronously with a
`TypeError` before performing any state mutation or event dispatch: the
cache argument is returned exactly as it was and no event fires.  Covers
the modelled operations `cacheEntryDelete`, `cacheEntryStale`,
`cacheDelete`, `cacheStale` and `cachePrune`. -/
theorem claimC9_validationFailFast :
    ∀ (V : Type) (env : CacheEnv V) (a1 a2 : JSValue V),
      (¬(isCacheVal a1 = true ∧ isStringVal a2 = true) →
        cacheEntryDeleteChecked env a1 a2 =
          ⟨a1, [], some (.typeError
            (if isCacheVal a1 then "Argument 2 `cacheKey` must be a string."
             else "Argument 1 `cache` must be a `Cache` instance."))⟩ ∧
        cacheEntryStaleChecked env a1 a2 =
          ⟨a1, [], some (.typeError
            (if isCacheVal a1 then "Argument 2 `cacheKey` must be a string."
             else "Argument 1 `cache` must be a `Cache` instance."))⟩) ∧
      (¬(isCacheVal a1 = true ∧ isMatcherVal a2 = true) →
        cacheDeleteChecked env a1 a2 =
          ⟨a1, [], some (.typeError
            (if isCacheVal a1 then
              "Argument 2 `cacheKeyMatcher` must be a function."
             else "Argument 1 `cache` must be a `Cache` instance."))⟩ ∧
        cacheStaleChecked env a1 a2 =
          ⟨a1, [], some (.typeError
            (if isCacheVal a1 then
              "Argument 2 `cacheKeyMatcher` must be a function."
             else "Argument 1 `cache` must be a `Cache` instance."))⟩ ∧
        cachePruneChecked env a1 a2 =
          ⟨a1, [], some (.typeError
            (if isCacheVal a1 then
              "Argument 2 `cacheKeyMatcher` must be a function."
             else "Argument 1 `cache` must be a `Cache` instance."))⟩) := by
  intro V env a1 a2
  constructor
  · intro h
    cases a1 <;> cases a2 <;>
      simp_all [cacheEntryDeleteChecked, cacheEntryStaleChecked,
        isCacheVal, isStringVal]
  · intro h
    cases a1 <;> cases a2 <;>
      simp_all [cacheDeleteChecked, cacheStaleChecked, cachePruneChecked,
        isCacheVal, isMatcherVal]

/-- Witness for claim C9 at a concrete invalidly-typed call. -/
theorem claimC9_witness :
    ¬(isCacheVal (JSValue.boolVal (V := Nat) true) = true ∧
      isStringVal (JSValue.boolVal (V := Nat) true) = true) ∧
    cacheEntryDeleteChecked (pureEnv fun _ => false)
        (JSValue.boolVal (V := Nat) true) (JSValue.boolVal true) =
      ⟨JSValue.boolVal true, [], some (.typeError
        "Argument 1 `cache` must be a `Cache` instance.")⟩ :=
  ⟨fun h => by simpa [isCacheVal] using h.1,
    ((claimC9_validationFailFast Nat (pureEnv fun _ => false)
      (JSValue.boolVal true) (JSValue.boolVal true)).1
        (fun h => by simpa [isCacheVal] using h.1)).1⟩

/-- Claim C1: a `LoadingCacheValue` whose abort controller fired before its
result promise settled causes no `Cache` mutation for its key — the cache
is exactly as before the load, even though the promise resolved with a
value — ends in the `ABORTED` state, and is removed from the `Loading`
registry exactly once: having been registered by construction, settlement
restores the registry to its pre-construction contents. -/
theorem claimC1_abortedLoadNeverWritesCache {V : Type} (env : CacheEnv V)
    (sys : LoadSys V) (k : String) (idn : Nat) (v : V)
    (hfresh : idn ∉ loadingIds sys.loading k)
    (hwf : ∀ e ∈ sys.loading, e.2 ≠ []) :
    (lcvSettle env (lcvConstruct sys k idn) k idn true v).1.cache =
      sys.cache ∧
    (lcvSettle env (lcvConstruct sys k idn) k idn true v).2 =
      LcvState.aborted ∧
    (lcvSettle env (lcvConstruct sys k idn) k idn true v).1.loading =
      sys.loading ∧
    idn ∈ loadingIds (lcvConstruct sys k idn).loading k := by
  refine ⟨rfl, rfl, ?_, mem_loadingIds_loadingRegister _ _ _⟩
  show loadingUnregister (loadingRegister sys.loading k idn) k idn =
    sys.loading
  exact loadingUnregister_loadingRegister hfresh hwf

/-- Witness for claim C1 at a concrete aborted load. -/
theorem claimC1_witness :
    (7 ∉ loadingIds [("y", [1])] "x") ∧
    (∀ e ∈ ([("y", [1])] : List (String × List Nat)), e.2 ≠ []) ∧
    (lcvSettle (pureEnv fun _ => false)
        (lcvConstruct ⟨[("x", (3 : Nat))], [("y", [1])]⟩ "x" 7)
        "x" 7 true 9).1.cache = [("x", 3)] ∧
    (lcvSettle (pureEnv fun _ => false)
        (lcvConstruct ⟨[("x", (3 : Nat))], [("y", [1])]⟩ "x" 7)
        "x" 7 true 9).1.loading = [("y", [1])] :=
  ⟨by decide, by decide,
    (claimC1_abortedLoadNeverWritesCache (pureEnv fun _ => false)
      ⟨[("x", 3)], [("y", [1])]⟩ "x" 7 9 (by decide) (by decide)).1,
    (claimC1_abortedLoadNeverWritesCache (pureEnv fun _ => false)
      ⟨[("x", 3)], [("y", [1])]⟩ "x" 7 9 (by decide) (by decide)).2.2.1⟩

/-- Claim C10 counterexample: the claim quantifies over every
`exceptCacheKey` argument, but `GraphQL#reset` guards the exemption with a
JS truthiness check, so the empty-string cache key is never exempted: on a
cache whose only entry has the empty-string key, `reset("")` deletes that
entry instead of leaving it unchanged. -/
theorem claimC10_counterexample :
    (graphQLReset [("", (5 : Nat))] (some "")).1 = [] ∧
    storeGet (graphQLReset [("", (5 : Nat))] (some "")).1 "" ≠ some 5 := by
  decide

/-- Claim C10 amended: for every non-empty `exceptCacheKey`, `reset`
deletes every key except `exceptCacheKey`, leaving the entries at
`exceptCacheKey` (when present) unchanged; an absent or empty
`exceptCacheKey` exempts nothing, so all keys are deleted; and exactly one
`reset` event is emitted, after all deletions have been applied. -/
theorem claimC10_resetAmended :
    ∀ (V : Type) (cache : List (String × V)) (k : String),
      (k ≠ "" →
        (graphQLReset cache (some k)).1 =
          cache.filter fun kv => kv.1 == k) ∧
      (graphQLReset cache none).1 = [] ∧
      (graphQLReset cache (some "")).1 = [] ∧
      (graphQLReset cache (some k)).2 = ["reset"] ∧
      (graphQLReset cache none).2 = ["reset"] := by
  intro V cache k
  have hall : (storeKeys cache).foldl (fun acc k' => deleteKey acc k') cache =
      [] := by
    rw [foldl_deleteKey]
    rw [List.filter_eq_nil_iff]
    intro kv hkv
    have : kv.1 ∈ storeKeys cache := List.mem_map_of_mem _ hkv
    simp [List.contains, List.elem_eq_mem, this]
  refine ⟨fun hk => ?_, ?_, ?_, rfl, rfl⟩
  · rw [graphQLReset]
    have htruthy : jsTruthyStr (some k) = true := by
      simpa [jsTruthyStr] using hk
    simp only [htruthy, if_true, Option.getD_some]
    rw [foldl_deleteKey]
    apply List.filter_congr
    intro kv hkv
    rw [contains_filter_keys _ cache kv hkv]
    simp [bne]
  · rw [graphQLReset]
    simp only [jsTruthyStr, Bool.false_eq_true, if_false]
    exact hall
  · rw [graphQLReset]
    simp only [jsTruthyStr, bne_self_eq_false, Bool.false_eq_true, if_false]
    exact hall

/-- Witness for the amended claim C10 at a concrete non-empty exception
key. -/
theorem claimC10_witness :
    ("b" ≠ "") ∧
    (graphQLReset [("a", (1 : Nat)), ("b", 2)] (some "b")).1 = [("b", 2)] :=
  ⟨by decide,
    by
      have h := (claimC10_resetAmended Nat [("a", 1), ("b", 2)] "b").1
        (by decide)
      simpa using h⟩

end GraphqlReact
